import Mathlib

/-!
Shallow embedding of `src/automation/generator.py`, the publish batch runner
of this repository.  Pure string helpers (`clean_filename`, the fence
stripping done with `str.replace`) are translated to executable functions on
`List Char`; the stateful `main` loop is translated to an explicit state
passing recursion (`runLoop`) whose observable effects (generation calls,
file writes, the rewritten record store) are returned as data.  External
effects (the Gemini call, the filesystem write) are modelled by an explicit
oracle (`Gen`), since the program treats them as opaque succeed-or-fail
operations.
-/

namespace Generator

/-! ## Characters and Python string helpers -/

/-- Python `\s` on the ASCII range: the characters the regex class `\s`
matches (space, tab, newline, carriage return, vertical tab, form feed,
and the ASCII separator controls `\x1c`, `\x1d`, `\x1e`, `\x1f`, which
Python also counts as whitespace).  Also the set stripped by
`str.strip()` for ASCII text. -/
def pyIsSpace (c : Char) : Bool :=
  c = ' ' || c = '\t' || c = '\n' || c = '\r' || c = '\x0b' || c = '\x0c' ||
    c = '\x1c' || c = '\x1d' || c = '\x1e' || c = '\x1f'

/-- The characters kept by `re.sub(r'[^a-zA-Z0-9\s-]', '', text)`:
ASCII alphanumerics, whitespace, and the hyphen. -/
def keptChar (c : Char) : Bool :=
  c.isAlphanum || pyIsSpace c || c = '-'

/-- Python `str.strip()`: drop leading and trailing whitespace. -/
def pyStrip (s : List Char) : List Char :=
  ((s.dropWhile pyIsSpace).reverse.dropWhile pyIsSpace).reverse

/-- `clean_filename` from `generator.py`:
`re.sub(r'[^a-zA-Z0-9\s-]', '', text).strip().replace(' ', '-').lower()[:50]`. -/
def clean_filename (text : List Char) : List Char :=
  (((pyStrip (text.filter keptChar)).map
      (fun c => if c = ' ' then '-' else c)).map Char.toLower).take 50

/-- Fuelled worker for Python `str.replace(pat, '')`: scan left to right;
whenever `pat` is a prefix of the remaining text, delete it and continue
after the deleted occurrence, otherwise keep one character and move on.
The fuel is only a structural-recursion device; it is always called with
fuel at least the length of the text. -/
def replaceAllF (pat : List Char) : Nat → List Char → List Char
  | _, [] => []
  | 0, s => s
  | fuel + 1, c :: cs =>
    if pat.isPrefixOf (c :: cs) then
      replaceAllF pat fuel (List.drop (pat.length - 1) cs)
    else
      c :: replaceAllF pat fuel cs

/-- Python `s.replace(pat, '')` for a non-empty pattern `pat`. -/
def replaceAll (pat s : List Char) : List Char :=
  replaceAllF pat s.length s

/-- The fence stripping applied to every generation result in `main`:
`content.replace("```markdown", "").replace("```", "")`. -/
def fence_clean (s : List Char) : List Char :=
  replaceAll ("```".data) (replaceAll ("```markdown".data) s)

/-- `get_target_count` from `generator.py`: 8 posts on weekend days
(Python `weekday()` is 5 for Saturday and 6 for Sunday), 4 otherwise. -/
def get_target_count (weekday : Nat) : Nat :=
  if 5 ≤ weekday then 8 else 4

/-! ## The record store -/

/-- One CSV row as produced by `csv.DictReader`: an association list from
field name to cell value.  A value `none` models a cell that Python holds
as `None` (a row shorter than the header); a key that is absent entirely
models a column missing from the header. -/
abbrev Row := List (String × Option String)

/-- Dictionary lookup: `some v` when the key is present with cell `v`,
`none` when the key is absent. -/
def getField (r : Row) (k : String) : Option (Option String) :=
  (r.find? (fun p => p.1 == k)).map Prod.snd

/-- Python `row.get(k)`: `None` both when the key is absent and when the
stored cell is `None`. -/
def pyGet (r : Row) (k : String) : Option String :=
  (getField r k).join

/-- Python dictionary assignment `row[k] = v`: overwrite in place when the
key exists, append the new key otherwise. -/
def setField (r : Row) (k v : String) : Row :=
  if (r.find? (fun p => p.1 == k)).isSome then
    r.map (fun p => if p.1 == k then (k, some v) else p)
  else
    r ++ [(k, some v)]

/-- The skip test of the loop: `row.get('Status') == 'Published'`. -/
def published (r : Row) : Bool :=
  pyGet r "Status" == some "Published"

/-- Whether `row['Question']` evaluates without raising: the key exists and
the cell is not `None`. -/
def hasQ (r : Row) : Bool :=
  (pyGet r "Question").isSome

/-- The record store file `data/questions.csv`: header plus data rows. -/
structure Store where
  fieldnames : List String
  rows : List Row
deriving DecidableEq, Repr

/-- Number of rows the skip test does not skip. -/
def pendingCount (rows : List Row) : Nat :=
  (rows.filter (fun r => !published r)).length

/-- Number of rows the skip test skips. -/
def publishedCount (rows : List Row) : Nat :=
  (rows.filter published).length

/-! ## The batch loop -/

/-- The external world as the program sees it: the generation service
(`model.generate_content`, `none` models a raised `GenerationError`) and
the success of a file write (`false` models a raised `WriteError`). -/
structure Gen where
  generate : String → Option (List Char)
  writeOk : String → List Char → Bool

/-- The output filename `f"{date.today()}-{clean_filename(q)}.md"`. -/
def filenameFor (dateStr : String) (q : String) : String :=
  dateStr ++ "-" ++ String.mk (clean_filename q.data) ++ ".md"

/-- Observable outcome of the `for row in rows` loop.  `files` and
`genCalls` carry the index of the record an effect was performed for;
`ok = false` records an exception that escaped the per-record handler
(`row['Question']` raising on a missing or `None` question), which aborts
`main` before the store is rewritten. -/
structure LoopOut where
  rows : List Row
  processed : Nat
  files : List (Nat × String × List Char)
  genCalls : List (Nat × String)
  ok : Bool
deriving DecidableEq, Repr

/-- The record loop of `main`, translated line by line:
quota check, `Published` skip, the unguarded `row['Question']` access,
then inside `try`: generate, strip fences, write the file, mark the row
`Published` and count it; any generation or write failure is caught and
the loop continues with the next row. -/
def runLoop (eff : Gen) (dateStr : String) (target : Nat) :
    List Row → Nat → Nat → LoopOut
  | [], _, processed => ⟨[], processed, [], [], true⟩
  | row :: rest, idx, processed =>
    if target ≤ processed then
      ⟨row :: rest, processed, [], [], true⟩
    else if published row then
      let o := runLoop eff dateStr target rest (idx + 1) processed
      ⟨row :: o.rows, o.processed, o.files, o.genCalls, o.ok⟩
    else
      match pyGet row "Question" with
      | none => ⟨row :: rest, processed, [], [], false⟩
      | some q =>
        match eff.generate q with
        | none =>
          let o := runLoop eff dateStr target rest (idx + 1) processed
          ⟨row :: o.rows, o.processed, o.files, (idx, q) :: o.genCalls, o.ok⟩
        | some text =>
          let cleaned := fence_clean text
          let fn := filenameFor dateStr q
          if eff.writeOk fn cleaned then
            let o := runLoop eff dateStr target rest (idx + 1) (processed + 1)
            ⟨setField row "Status" "Published" :: o.rows, o.processed,
              (idx, fn, cleaned) :: o.files, (idx, q) :: o.genCalls, o.ok⟩
          else
            let o := runLoop eff dateStr target rest (idx + 1) processed
            ⟨row :: o.rows, o.processed, o.files, (idx, q) :: o.genCalls, o.ok⟩

/-- Observable outcome of one invocation of `main`.  `store = some s`
means the CSV was rewritten with contents `s`; `none` means the rewrite
never happened (store absent, or an uncaught exception).  `completed`
is false when the process died with an uncaught exception. -/
structure MainResult where
  genCalls : List (Nat × String)
  files : List (Nat × String × List Char)
  store : Option Store
  processed : Nat
  completed : Bool
deriving Repr

/-- `main` from `generator.py`.  `csv = none` models the store file being
absent (the `os.path.exists` early return) or unparsable (an exception
while reading, which also prevents every later effect); otherwise the
fieldnames gain a `Status` column when missing, the loop runs, and on
normal completion the full row set is written back. -/
def pymain (eff : Gen) (dateStr : String) (weekday : Nat)
    (csv : Option Store) : MainResult :=
  match csv with
  | none => ⟨[], [], none, 0, true⟩
  | some st =>
    let fns := if "Status" ∈ st.fieldnames then st.fieldnames
      else st.fieldnames ++ ["Status"]
    let o := runLoop eff dateStr (get_target_count weekday) st.rows 0 0
    if o.ok then ⟨o.genCalls, o.files, some ⟨fns, o.rows⟩, o.processed, true⟩
    else ⟨o.genCalls, o.files, none, o.processed, false⟩

/-- The whole process: module initialisation reads
`os.environ["GEMINI_API_KEY"]` and raises `KeyError` before `main` ever
runs when the credential is absent. -/
def program (apiKeyPresent : Bool) (eff : Gen) (dateStr : String)
    (weekday : Nat) (csv : Option Store) : MainResult :=
  if apiKeyPresent then pymain eff dateStr weekday csv
  else ⟨[], [], none, 0, false⟩

/-! ## Iterated runs -/

/-- The varying inputs of one invocation: the external world, the date
string and the weekday. -/
structure RunEnv where
  eff : Gen
  dateStr : String
  weekday : Nat

/-- The on-disk store after one more run: the rewritten contents when the
run rewrote the file, the previous contents otherwise. -/
def nextStore (st : Store) (e : RunEnv) : Store :=
  (pymain e.eff e.dateStr e.weekday (some st)).store.getD st

/-- The on-disk store after a sequence of runs. -/
def chainStores (st : Store) (es : List RunEnv) : Store :=
  es.foldl nextStore st

/-! ## Specification-side definitions -/

/-- Modelled from the spec: the quota-bound sentence of section 8 describes
the run as publishing exactly the first `quota` unpublished records in
original store order and leaving the rest untouched.  This definition
follows those words and is compared with `runLoop` in the refinement
theorem for that claim. -/
def specMarkFirst : Nat → List Row → List Row
  | _, [] => []
  | 0, rows => rows
  | k + 1, row :: rest =>
    if published row then row :: specMarkFirst (k + 1) rest
    else setField row "Status" "Published" :: specMarkFirst k rest

/-- A slug character in the sense of the spec: lowercase ASCII letter,
ASCII digit, or hyphen. -/
def slugChar (c : Char) : Bool :=
  ('a' ≤ c && c ≤ 'z') || c.isDigit || c = '-'

/-! ## Concrete example data used to instantiate the theorems -/

/-- An external world in which every generation call returns `X` and every
file write succeeds. -/
def allOk : Gen :=
  ⟨fun _ => some ['X'], fun _ _ => true⟩

/-- An external world in which the generation call fails exactly for the
question `q1` and every file write succeeds. -/
def failQ1 : Gen :=
  ⟨fun q => if q == "q1" then none else some ['X'], fun _ _ => true⟩

/-- A pending record with the given question. -/
def mkPending (q : String) : Row :=
  [("Question", some q), ("Status", some "Pending")]

/-- A published record with the given question. -/
def mkPublished (q : String) : Row :=
  [("Question", some q), ("Status", some "Published")]

/-- A store of five pending records. -/
def exStore : Store :=
  ⟨["Question", "Status"],
    [mkPending "q1", mkPending "q2", mkPending "q3", mkPending "q4",
      mkPending "q5"]⟩

/-- A store with one published and one pending record. -/
def exStorePub : Store :=
  ⟨["Question", "Status"], [mkPublished "p1", mkPending "q1"]⟩

/-- A store whose second data row has a `None` question cell. -/
def exStoreAbort : Store :=
  ⟨["Question", "Status"],
    [mkPending "A", [("Question", none), ("Status", some "Pending")]]⟩

/-- A concrete run environment: the always-succeeding world on a Monday. -/
def exEnv : RunEnv :=
  ⟨allOk, "2024-01-01", 0⟩

/-! ## Lemmas about the Python replace -/

theorem replaceAllF_eq_of_le (pat : List Char) :
    ∀ fuel fuel2 s, s.length ≤ fuel → s.length ≤ fuel2 →
      replaceAllF pat fuel s = replaceAllF pat fuel2 s := by
  intro fuel
  induction fuel with
  | zero =>
    intro fuel2 s hs _
    have : s = [] := List.length_eq_zero.mp (Nat.le_zero.mp hs)
    subst this
    cases fuel2 <;> simp [replaceAllF]
  | succ f ih =>
    intro fuel2 s hs hs2
    match s, fuel2 with
    | [], _ => cases fuel2 <;> simp [replaceAllF]
    | c :: cs, 0 => simp at hs2
    | c :: cs, f2 + 1 =>
      simp only [List.length_cons, Nat.add_le_add_iff_right] at hs hs2
      have hd : (List.drop (pat.length - 1) cs).length ≤ cs.length := by
        simp [List.length_drop]
      cases hp : pat.isPrefixOf (c :: cs) with
      | true =>
        simp only [replaceAllF, hp, if_true]
        exact ih f2 _ (le_trans hd hs) (le_trans hd hs2)
      | false =>
        simp only [replaceAllF, hp, Bool.false_eq_true, if_false]
        exact congrArg (c :: ·) (ih f2 cs hs hs2)

theorem replaceAll_nil (pat : List Char) : replaceAll pat [] = [] := rfl

theorem replaceAll_cons_pos (pat : List Char) (c : Char) (cs : List Char)
    (h : pat.isPrefixOf (c :: cs) = true) :
    replaceAll pat (c :: cs) = replaceAll pat (List.drop (pat.length - 1) cs) := by
  unfold replaceAll
  simp only [List.length_cons, replaceAllF, h, if_true]
  exact replaceAllF_eq_of_le pat cs.length _ _ (by simp [List.length_drop]) le_rfl

theorem replaceAll_cons_neg (pat : List Char) (c : Char) (cs : List Char)
    (h : pat.isPrefixOf (c :: cs) = false) :
    replaceAll pat (c :: cs) = c :: replaceAll pat cs := by
  unfold replaceAll
  simp [replaceAllF, h]

theorem replaceAll_append_self (p : Char) (pt rest : List Char) :
    replaceAll (p :: pt) ((p :: pt) ++ rest) = replaceAll (p :: pt) rest := by
  have hp : (p :: pt).isPrefixOf ((p :: pt) ++ rest) = true := by
    rw [List.isPrefixOf_iff_prefix]
    exact List.prefix_append _ _
  rw [List.cons_append] at hp ⊢
  rw [replaceAll_cons_pos _ _ _ hp]
  congr 1
  simp only [List.length_cons, Nat.add_sub_cancel]
  exact List.drop_left pt rest

theorem replaceAll_append_clean (p : Char) (pt s t : List Char)
    (hs : ∀ c ∈ s, c ≠ p) :
    replaceAll (p :: pt) (s ++ t) = s ++ replaceAll (p :: pt) t := by
  induction s with
  | nil => simp
  | cons c cs ih =>
    have hc : (p == c) = false := by
      rw [beq_eq_false_iff_ne]
      exact fun h => (hs c (List.mem_cons_self c cs)) h.symm
    have hne : (p :: pt).isPrefixOf (c :: (cs ++ t)) = false := by
      simp [List.isPrefixOf, hc]
    rw [List.cons_append, replaceAll_cons_neg _ _ _ hne,
      ih (fun x hx => hs x (List.mem_cons_of_mem c hx)), List.cons_append]

theorem replaceAll_clean_id (p : Char) (pt s : List Char)
    (hs : ∀ c ∈ s, c ≠ p) :
    replaceAll (p :: pt) s = s := by
  have h := replaceAll_append_clean p pt s [] hs
  simpa [replaceAll_nil] using h

theorem isPrefixOf_append_same (a b c : List Char) :
    (a ++ b).isPrefixOf (a ++ c) = b.isPrefixOf c := by
  induction a with
  | nil => rfl
  | cons x xs ih => simp [List.isPrefixOf, ih]

theorem prefix_of_append_tick (pat body t : List Char) (hp : '`' ∉ pat)
    (h : pat.isPrefixOf (body ++ '`' :: t) = true) :
    pat.isPrefixOf body = true := by
  rw [List.isPrefixOf_iff_prefix] at h ⊢
  rcases List.prefix_or_prefix_of_prefix h (List.prefix_append body ('`' :: t))
    with h1 | h1
  · exact h1
  · obtain ⟨d, rfl⟩ := h1
    cases d with
    | nil => simp
    | cons d0 ds =>
      rw [List.prefix_append_right_inj] at h
      obtain ⟨u, hu⟩ := h
      have hd0 : d0 = '`' := by
        have := congrArg List.head? hu
        simpa using this
      exact absurd (by simp [hd0] : '`' ∈ body ++ d0 :: ds) hp

theorem md_not_prefix_one (xs : List Char) (h : xs.head? ≠ some '`') :
    ("```markdown".data).isPrefixOf ('`' :: xs) = false := by
  cases xs with
  | nil => decide
  | cons x xt =>
    have hx : ('`' == x) = false := by
      rw [beq_eq_false_iff_ne]
      intro he
      exact h (by simp [← he])
    simp [List.isPrefixOf, hx, String.data]

theorem md_not_prefix_two (xs : List Char) (h : xs.head? ≠ some '`') :
    ("```markdown".data).isPrefixOf ('`' :: '`' :: xs) = false := by
  cases xs with
  | nil => decide
  | cons x xt =>
    have hx : ('`' == x) = false := by
      rw [beq_eq_false_iff_ne]
      intro he
      exact h (by simp [← he])
    simp [List.isPrefixOf, hx, String.data]

/-! ## Specialised forms for the two patterns of the fence stripping -/

theorem isPrefixOf_cons_ne (a b : Char) (as bs : List Char)
    (h : (a == b) = false) :
    (a :: as).isPrefixOf (b :: bs) = false := by
  simp [List.isPrefixOf, h]

theorem markdown_not_prefix_append (mid rest : List Char)
    (hmp : ("markdown".data).isPrefixOf mid = false) :
    ("markdown".data).isPrefixOf (mid ++ '`' :: rest) = false := by
  cases h : ("markdown".data).isPrefixOf (mid ++ '`' :: rest) with
  | false => rfl
  | true =>
    exact absurd (prefix_of_append_tick _ mid rest (by decide) h)
      (by simp [hmp])

theorem replaceAll_md_clean_append (s t : List Char) (hs : ∀ c ∈ s, c ≠ '`') :
    replaceAll ("```markdown".data) (s ++ t) =
      s ++ replaceAll ("```markdown".data) t :=
  replaceAll_append_clean '`' ("``markdown".data) s t hs

theorem replaceAll_bt3_clean_append (s t : List Char) (hs : ∀ c ∈ s, c ≠ '`') :
    replaceAll ("```".data) (s ++ t) = s ++ replaceAll ("```".data) t :=
  replaceAll_append_clean '`' ("``".data) s t hs

theorem replaceAll_md_id (s : List Char) (hs : ∀ c ∈ s, c ≠ '`') :
    replaceAll ("```markdown".data) s = s :=
  replaceAll_clean_id '`' ("``markdown".data) s hs

theorem replaceAll_bt3_id (s : List Char) (hs : ∀ c ∈ s, c ≠ '`') :
    replaceAll ("```".data) s = s :=
  replaceAll_clean_id '`' ("``".data) s hs

theorem replaceAll_md_marker_self (rest : List Char) :
    replaceAll ("```markdown".data) ("```markdown".data ++ rest) =
      replaceAll ("```markdown".data) rest :=
  replaceAll_append_self '`' ("``markdown".data) rest

theorem replaceAll_bt3_marker (rest : List Char) :
    replaceAll ("```".data) ("```".data ++ rest) =
      replaceAll ("```".data) rest :=
  replaceAll_append_self '`' ("``".data) rest

theorem replaceAll_md_on_bt3 :
    replaceAll ("```markdown".data) ("```".data) = "```".data := by decide

theorem replaceAll_bt3_on_bt3 :
    replaceAll ("```".data) ("```".data) = [] := by decide

theorem replaceAll_md_marker (tail : List Char)
    (h1 : ("markdown".data).isPrefixOf tail = false)
    (h2 : tail.head? ≠ some '`') :
    replaceAll ("```markdown".data) ("```".data ++ tail) =
      "```".data ++ replaceAll ("```markdown".data) tail := by
  have s1 : ("```markdown".data).isPrefixOf ('`' :: ('`' :: ('`' :: tail))) = false := by
    rw [show ('`' :: ('`' :: ('`' :: tail))) = "```".data ++ tail from rfl,
      show "```markdown".data = "```".data ++ "markdown".data from rfl,
      isPrefixOf_append_same]
    exact h1
  show replaceAll ("```markdown".data) ('`' :: ('`' :: ('`' :: tail))) = _
  rw [replaceAll_cons_neg _ _ _ s1]
  rw [replaceAll_cons_neg _ _ _ (md_not_prefix_two tail h2)]
  rw [replaceAll_cons_neg _ _ _ (md_not_prefix_one tail h2)]
  rfl

/-- C5 counterexample: for the generation result "```python\nX\n```" —
which begins with a fenced-code-block opening marker with a language tag
and ends with a closing fence — the persisted content would be "X" if both
fences were removed and surrounding whitespace trimmed; the code instead
persists "python\nX\n": the tag text survives and the whitespace is not
trimmed. -/
theorem C5_counterexample_fences_not_trimmed :
    fence_clean ("```python\nX\n```".data) = "python\nX\n".data ∧
    pyStrip (fence_clean ("```python\nX\n```".data)) ≠
      fence_clean ("```python\nX\n```".data) ∧
    fence_clean ("```python\nX\n```".data) ≠ "X".data := by
  refine ⟨by decide, by decide, by decide⟩

/-- C5 amended: for a generation result wrapped in an opening fence that is
bare or tagged exactly `markdown`, with a nonempty backtick-free body, the
persisted content is exactly the body: both fences are removed, but the
body's surrounding whitespace is kept, not trimmed. -/
theorem C5_fences_removed_whitespace_kept (body : List Char)
    (hne : body ≠ []) (hbt : ∀ c ∈ body, c ≠ '`')
    (hmd : ("markdown".data).isPrefixOf body = false) :
    fence_clean ("```".data ++ (body ++ "```".data)) = body ∧
    fence_clean ("```markdown".data ++ (body ++ "```".data)) = body := by
  have hbh : (body ++ "```".data).head? ≠ some '`' := by
    cases body with
    | nil => exact absurd rfl hne
    | cons b0 bs =>
      simp only [List.cons_append, List.head?_cons, ne_eq, Option.some.injEq]
      exact hbt b0 (List.mem_cons_self b0 bs)
  constructor
  · show replaceAll ("```".data)
      (replaceAll ("```markdown".data) ("```".data ++ (body ++ "```".data))) = body
    rw [replaceAll_md_marker _
      (markdown_not_prefix_append body ("``".data) hmd) hbh]
    rw [replaceAll_md_clean_append body _ hbt, replaceAll_md_on_bt3]
    rw [replaceAll_bt3_marker, replaceAll_bt3_clean_append body _ hbt,
      replaceAll_bt3_on_bt3, List.append_nil]
  · show replaceAll ("```".data)
      (replaceAll ("```markdown".data)
        ("```markdown".data ++ (body ++ "```".data))) = body
    rw [replaceAll_md_marker_self, replaceAll_md_clean_append body _ hbt,
      replaceAll_md_on_bt3]
    rw [replaceAll_bt3_clean_append body _ hbt, replaceAll_bt3_on_bt3,
      List.append_nil]

/-- Witness for the amended C5 theorem at the body `"\nX\n"`. -/
theorem C5_witness :
    ("\nX\n".data ≠ [] ∧ (∀ c ∈ "\nX\n".data, c ≠ '`') ∧
      ("markdown".data).isPrefixOf ("\nX\n".data) = false) ∧
    fence_clean ("```markdown".data ++ ("\nX\n".data ++ "```".data)) =
      "\nX\n".data :=
  ⟨⟨by decide, by decide, by decide⟩,
    (C5_fences_removed_whitespace_kept ("\nX\n".data) (by decide) (by decide)
      (by decide)).2⟩

/-- C10: the fence stripping step removes every occurrence of the literal
strings "```markdown" and "```" anywhere in the text, not only an enclosing
pair: an interior fence pair around `mid` is deleted wherever it sits, and
an opening fence with the language tag `python` leaves the bare text
`python` behind in the content. -/
theorem C10_replace_is_global :
    (∀ pre mid post : List Char,
      (∀ c ∈ pre, c ≠ '`') → (∀ c ∈ mid, c ≠ '`') → (∀ c ∈ post, c ≠ '`') →
      mid ≠ [] → ("markdown".data).isPrefixOf mid = false →
      ("markdown".data).isPrefixOf post = false →
      fence_clean (pre ++ ("```".data ++ (mid ++ ("```".data ++ post)))) =
        pre ++ (mid ++ post)) ∧
    (∀ body : List Char, (∀ c ∈ body, c ≠ '`') →
      fence_clean ("```python".data ++ (body ++ "```".data)) =
        "python".data ++ body) := by
  constructor
  · intro pre mid post hpre hmid hpost hmn hmp hpp
    have hmh : (mid ++ ("```".data ++ post)).head? ≠ some '`' := by
      cases mid with
      | nil => exact absurd rfl hmn
      | cons m0 ms =>
        simp only [List.cons_append, List.head?_cons, ne_eq, Option.some.injEq]
        exact hmid m0 (List.mem_cons_self m0 ms)
    have hph : post.head? ≠ some '`' := by
      cases post with
      | nil => simp
      | cons p0 ps =>
        simp only [List.head?_cons, ne_eq, Option.some.injEq]
        exact hpost p0 (List.mem_cons_self p0 ps)
    show replaceAll ("```".data) (replaceAll ("```markdown".data) _) = _
    have h1 : ("markdown".data).isPrefixOf (mid ++ ("```".data ++ post)) = false :=
      markdown_not_prefix_append mid ("``".data ++ post) hmp
    rw [replaceAll_md_clean_append pre _ hpre]
    rw [replaceAll_md_marker _ h1 hmh]
    rw [replaceAll_md_clean_append mid _ hmid]
    rw [replaceAll_md_marker post hpp hph]
    rw [replaceAll_md_id post hpost]
    rw [replaceAll_bt3_clean_append pre _ hpre]
    rw [replaceAll_bt3_marker]
    rw [replaceAll_bt3_clean_append mid _ hmid]
    rw [replaceAll_bt3_marker]
    rw [replaceAll_bt3_id post hpost]
  · intro body hbody
    have hclean : ∀ c ∈ "python".data ++ body, c ≠ '`' := by
      intro c hc
      rcases List.mem_append.mp hc with h | h
      · have hall : ∀ x ∈ "python".data, x ≠ '`' := by decide
        exact hall c h
      · exact hbody c h
    show replaceAll ("```".data) (replaceAll ("```markdown".data) _) = _
    rw [show "```python".data ++ (body ++ "```".data) =
      "```".data ++ ("python".data ++ (body ++ "```".data)) from rfl]
    have hpy : ("python".data ++ (body ++ "```".data)).head? ≠ some '`' := by
      show some 'p' ≠ some '`'
      decide
    have h1 : ("markdown".data).isPrefixOf
        ("python".data ++ (body ++ "```".data)) = false :=
      isPrefixOf_cons_ne 'm' 'p' _ _ (by decide)
    rw [replaceAll_md_marker ("python".data ++ (body ++ "```".data)) h1 hpy]
    rw [show "python".data ++ (body ++ "```".data) =
      ("python".data ++ body) ++ "```".data from (List.append_assoc _ _ _).symm]
    rw [replaceAll_md_clean_append _ _ hclean, replaceAll_md_on_bt3]
    rw [replaceAll_bt3_marker, replaceAll_bt3_clean_append _ _ hclean,
      replaceAll_bt3_on_bt3, List.append_nil]

/-- Witness for C10: an interior fence pair inside "a ```x``` b" is
deleted, and the python-tagged result "```python\nX\n```" keeps the text
"python". -/
theorem C10_witness :
    fence_clean ("a ".data ++ ("```".data ++ ("x".data ++ ("```".data ++ " b".data)))) =
      "a ".data ++ ("x".data ++ " b".data) ∧
    fence_clean ("```python".data ++ ("\nX\n".data ++ "```".data)) =
      "python".data ++ "\nX\n".data :=
  ⟨C10_replace_is_global.1 ("a ".data) ("x".data) (" b".data) (by decide)
      (by decide) (by decide) (by decide) (by decide) (by decide),
    C10_replace_is_global.2 ("\nX\n".data) (by decide)⟩

/-- Per-character fact behind the slug claim: an ASCII character kept by
the sanitising regex whose only whitespace form is the plain space turns
into a slug character after the space-to-hyphen replacement and
lowercasing. -/
theorem slug_char_step :
    ∀ n : Nat, n < 128 → keptChar (Char.ofNat n) = true →
      (pyIsSpace (Char.ofNat n) = true → Char.ofNat n = ' ') →
      slugChar (Char.toLower
        (if Char.ofNat n = ' ' then '-' else Char.ofNat n)) = true := by
  decide

/-- C6 counterexample: the question text "a\tb" (a tab between two
letters) yields the slug "a\tb": the tab character is kept by the regex
class `\s` but not replaced by the space-to-hyphen step, so the derived
slug is not lowercase-alphanumeric-and-hyphen only. -/
theorem C6_counterexample_tab_survives :
    clean_filename ['a', '\t', 'b'] = ['a', '\t', 'b'] ∧
    (clean_filename ['a', '\t', 'b']).all slugChar = false := by
  refine ⟨by decide, by decide⟩

/-- C6 amended: for every ASCII question text whose whitespace characters
are all plain spaces, the derived slug contains only lowercase
alphanumeric characters and hyphens (no punctuation survives) and is
truncated to 50 characters; and the question "What is a Load Balancer?"
yields the slug "what-is-a-load-balancer". -/
theorem C6_slug_sanitization (text : List Char)
    (hascii : ∀ c ∈ text, c.toNat < 128)
    (hsp : ∀ c ∈ text, pyIsSpace c = true → c = ' ') :
    ((clean_filename text).all slugChar = true ∧
      (clean_filename text).length ≤ 50) ∧
    clean_filename ("What is a Load Balancer?".data) =
      "what-is-a-load-balancer".data := by
  refine ⟨⟨?_, ?_⟩, by decide⟩
  · rw [List.all_eq_true]
    intro c hc
    unfold clean_filename at hc
    have hc1 := List.take_subset _ _ hc
    obtain ⟨b, hb, rfl⟩ := List.mem_map.mp hc1
    obtain ⟨a, ha, rfl⟩ := List.mem_map.mp hb
    rw [pyStrip] at ha
    have ha1 : a ∈ ((text.filter keptChar).dropWhile pyIsSpace).reverse :=
      (List.dropWhile_sublist pyIsSpace).subset (List.mem_reverse.mp ha)
    have ha2 : a ∈ (text.filter keptChar).dropWhile pyIsSpace :=
      List.mem_reverse.mp ha1
    have ha3 : a ∈ text.filter keptChar :=
      (List.dropWhile_sublist pyIsSpace).subset ha2
    have ha4 := List.mem_filter.mp ha3
    have hn := hascii a ha4.1
    have hkept := ha4.2
    have hspa := hsp a ha4.1
    have := slug_char_step a.toNat hn
      (by rwa [Char.ofNat_toNat]) (by rwa [Char.ofNat_toNat])
    rwa [Char.ofNat_toNat] at this
  · exact List.length_take_le 50 _

/-- Witness for the amended C6 theorem at the question text of the spec's
example. -/
theorem C6_witness :
    ((∀ c ∈ "What is a Load Balancer?".data, c.toNat < 128) ∧
      (∀ c ∈ "What is a Load Balancer?".data, pyIsSpace c = true → c = ' ')) ∧
    (clean_filename ("What is a Load Balancer?".data)).all slugChar = true :=
  ⟨⟨by decide, by decide⟩,
    (C6_slug_sanitization ("What is a Load Balancer?".data) (by decide)
      (by decide)).1.1⟩

/-! ## Lemmas about rows -/

theorem getField_cons (p : String × Option String) (rs : Row) (k : String) :
    getField (p :: rs) k = if p.1 == k then some p.2 else getField rs k := by
  unfold getField
  rw [List.find?_cons]
  by_cases hp : (p.1 == k) = true
  · simp [hp]
  · simp [hp]

theorem getField_map_set_same (r : Row) (k v : String)
    (hf : (r.find? (fun p => p.1 == k)).isSome = true) :
    getField (r.map (fun p => if p.1 == k then (k, some v) else p)) k =
      some (some v) := by
  induction r with
  | nil => simp at hf
  | cons p rs ih =>
    by_cases hp : (p.1 == k) = true
    · simp only [List.map_cons, hp, if_true, getField_cons]
      simp
    · have hf2 : (rs.find? (fun p => p.1 == k)).isSome = true := by
        rw [List.find?_cons] at hf
        simpa [hp] using hf
      simp only [List.map_cons, hp, if_false, getField_cons]
      simpa [hp] using ih hf2

theorem getField_map_set_ne (r : Row) (k v k2 : String)
    (h : (k == k2) = false) :
    getField (r.map (fun p => if p.1 == k then (k, some v) else p)) k2 =
      getField r k2 := by
  induction r with
  | nil => rfl
  | cons p rs ih =>
    rw [List.map_cons, getField_cons, getField_cons]
    by_cases hp : (p.1 == k) = true
    · have hpk : p.1 = k := by simpa using hp
      rw [if_pos hp]
      have h1 : (((k, some v) : String × Option String).1 == k2) = false := h
      have h2 : (p.1 == k2) = false := by rw [hpk]; exact h
      rw [h1, h2]
      simp only [Bool.false_eq_true, if_false]
      exact ih
    · rw [if_neg hp]
      by_cases hp2 : (p.1 == k2) = true
      · rw [if_pos hp2, if_pos hp2]
      · rw [if_neg hp2, if_neg hp2]
        exact ih

theorem getField_append_same (r : Row) (k v : String)
    (hf : (r.find? (fun p => p.1 == k)).isSome = false) :
    getField (r ++ [(k, some v)]) k = some (some v) := by
  induction r with
  | nil => simp [getField_cons]
  | cons p rs ih =>
    rw [List.find?_cons] at hf
    by_cases hp : (p.1 == k) = true
    · simp [hp] at hf
    · have hf2 : (rs.find? (fun p => p.1 == k)).isSome = false := by
        simpa [hp] using hf
      rw [List.cons_append, getField_cons]
      simpa [hp] using ih hf2

theorem getField_append_ne (r : Row) (k v k2 : String)
    (h : (k == k2) = false) :
    getField (r ++ [(k, some v)]) k2 = getField r k2 := by
  induction r with
  | nil => simp [getField_cons, h, getField]
  | cons p rs ih =>
    rw [List.cons_append, getField_cons, getField_cons]
    by_cases hp2 : (p.1 == k2) = true
    · simp [hp2]
    · simp [hp2, ih]

theorem getField_setField_same (r : Row) (k v : String) :
    getField (setField r k v) k = some (some v) := by
  unfold setField
  by_cases hf : (r.find? (fun p => p.1 == k)).isSome = true
  · rw [if_pos hf]
    exact getField_map_set_same r k v hf
  · rw [if_neg hf]
    exact getField_append_same r k v (by rw [← Bool.not_eq_true]; exact hf)

theorem getField_setField_ne (r : Row) (k v k2 : String) (h : k2 ≠ k) :
    getField (setField r k v) k2 = getField r k2 := by
  have hk : (k == k2) = false := by
    rw [beq_eq_false_iff_ne]
    exact fun he => h he.symm
  unfold setField
  by_cases hf : (r.find? (fun p => p.1 == k)).isSome = true
  · rw [if_pos hf]
    exact getField_map_set_ne r k v k2 hk
  · rw [if_neg hf]
    exact getField_append_ne r k v k2 hk

theorem published_setField (r : Row) :
    published (setField r "Status" "Published") = true := by
  simp [published, pyGet, getField_setField_same]

/-! ## Structural lemmas about the batch loop -/

theorem runLoop_rows_length (eff : Gen) (d : String) (t : Nat)
    (rows : List Row) (idx p : Nat) :
    (runLoop eff d t rows idx p).rows.length = rows.length := by
  induction rows generalizing idx p with
  | nil => simp [runLoop]
  | cons row rest ih =>
    by_cases h1 : t ≤ p
    · simp [runLoop, h1]
    · by_cases h2 : published row = true
      · simp [runLoop, h1, h2, ih]
      · cases hq : pyGet row "Question" with
        | none => simp [runLoop, h1, h2, hq]
        | some q =>
          cases hg : eff.generate q with
          | none => simp [runLoop, h1, h2, hq, hg, ih]
          | some text =>
            by_cases hw : eff.writeOk (filenameFor d q) (fence_clean text) = true
            · simp [runLoop, h1, h2, hq, hg, hw, ih]
            · simp [runLoop, h1, h2, hq, hg, hw, ih]

theorem runLoop_processed (eff : Gen) (d : String) (t : Nat)
    (rows : List Row) (idx p : Nat) :
    (runLoop eff d t rows idx p).processed =
      p + (runLoop eff d t rows idx p).files.length := by
  induction rows generalizing idx p with
  | nil => simp [runLoop]
  | cons row rest ih =>
    by_cases h1 : t ≤ p
    · simp [runLoop, h1]
    · by_cases h2 : published row = true
      · simp [runLoop, h1, h2, ih]
      · cases hq : pyGet row "Question" with
        | none => simp [runLoop, h1, h2, hq]
        | some q =>
          cases hg : eff.generate q with
          | none => simp [runLoop, h1, h2, hq, hg, ih]
          | some text =>
            by_cases hw : eff.writeOk (filenameFor d q) (fence_clean text) = true
            · simp [runLoop, h1, h2, hq, hg, hw, ih]
              omega
            · simp [runLoop, h1, h2, hq, hg, hw, ih]

theorem runLoop_ok (eff : Gen) (d : String) (t : Nat)
    (rows : List Row) (idx p : Nat)
    (hq : ∀ r ∈ rows, published r = false → hasQ r = true) :
    (runLoop eff d t rows idx p).ok = true := by
  induction rows generalizing idx p with
  | nil => simp [runLoop]
  | cons row rest ih =>
    have hrest : ∀ r ∈ rest, published r = false → hasQ r = true :=
      fun r hr => hq r (List.mem_cons_of_mem row hr)
    by_cases h1 : t ≤ p
    · simp [runLoop, h1]
    · by_cases h2 : published row = true
      · simp [runLoop, h1, h2, ih _ _ hrest]
      · cases hques : pyGet row "Question" with
        | none =>
          have := hq row (List.mem_cons_self row rest)
            (by rw [← Bool.not_eq_true]; exact h2)
          rw [hasQ, hques] at this
          simp at this
        | some q =>
          cases hg : eff.generate q with
          | none => simp [runLoop, h1, h2, hques, hg, ih _ _ hrest]
          | some text =>
            by_cases hw : eff.writeOk (filenameFor d q) (fence_clean text) = true
            · simp [runLoop, h1, h2, hques, hg, hw, ih _ _ hrest]
            · simp [runLoop, h1, h2, hques, hg, hw, ih _ _ hrest]

theorem runLoop_all_published (eff : Gen) (d : String) (t : Nat)
    (rows : List Row) (idx p : Nat)
    (h : ∀ r ∈ rows, published r = true) :
    runLoop eff d t rows idx p = ⟨rows, p, [], [], true⟩ := by
  induction rows generalizing idx p with
  | nil => simp [runLoop]
  | cons row rest ih =>
    have hrest : ∀ r ∈ rest, published r = true :=
      fun r hr => h r (List.mem_cons_of_mem row hr)
    by_cases h1 : t ≤ p
    · simp [runLoop, h1]
    · simp [runLoop, h1, h row (List.mem_cons_self row rest), ih _ _ hrest]

/-- Per-index characterisation of the loop's row updates: every row is
either returned unchanged, or was a non-published row that got its
`Status` set to `Published`, in which case a file was written for its
index. -/
theorem runLoop_rows_char (eff : Gen) (d : String) (t : Nat)
    (rows : List Row) (idx p i : Nat) :
    (runLoop eff d t rows idx p).rows[i]? = rows[i]? ∨
    (∃ ri, rows[i]? = some ri ∧ published ri = false ∧
      (runLoop eff d t rows idx p).rows[i]? =
        some (setField ri "Status" "Published") ∧
      ∃ f ∈ (runLoop eff d t rows idx p).files, f.1 = idx + i) := by
  induction rows generalizing idx p i with
  | nil => left; simp [runLoop]
  | cons row rest ih =>
    by_cases h1 : t ≤ p
    · left; simp [runLoop, h1]
    · by_cases h2 : published row = true
      · cases i with
        | zero => left; simp [runLoop, h1, h2]
        | succ i =>
          rcases ih (idx + 1) p i with hL | ⟨ri, hri, hnp, hset, f, hf, hfi⟩
          · left
            simpa [runLoop, h1, h2] using hL
          · right
            refine ⟨ri, by simpa using hri, hnp, by simpa [runLoop, h1, h2] using hset,
              f, by simpa [runLoop, h1, h2] using hf, by omega⟩
      · cases hq : pyGet row "Question" with
        | none => left; simp [runLoop, h1, h2, hq]
        | some q =>
          cases hg : eff.generate q with
          | none =>
            cases i with
            | zero => left; simp [runLoop, h1, h2, hq, hg]
            | succ i =>
              rcases ih (idx + 1) p i with hL | ⟨ri, hri, hnp, hset, f, hf, hfi⟩
              · left
                simpa [runLoop, h1, h2, hq, hg] using hL
              · right
                refine ⟨ri, by simpa using hri, hnp,
                  by simpa [runLoop, h1, h2, hq, hg] using hset,
                  f, by simpa [runLoop, h1, h2, hq, hg] using hf, by omega⟩
          | some text =>
            by_cases hw : eff.writeOk (filenameFor d q) (fence_clean text) = true
            · cases i with
              | zero =>
                right
                refine ⟨row, by simp, by rw [← Bool.not_eq_true]; exact h2,
                  by simp [runLoop, h1, h2, hq, hg, hw],
                  (idx, filenameFor d q, fence_clean text),
                  by simp [runLoop, h1, h2, hq, hg, hw], by omega⟩
              | succ i =>
                rcases ih (idx + 1) (p + 1) i with hL | ⟨ri, hri, hnp, hset, f, hf, hfi⟩
                · left
                  simpa [runLoop, h1, h2, hq, hg, hw] using hL
                · right
                  refine ⟨ri, by simpa using hri, hnp,
                    by simpa [runLoop, h1, h2, hq, hg, hw] using hset,
                    f, ?_, by omega⟩
                  simp only [runLoop, h1, h2, hq, hg, hw, if_neg h1, if_neg h2]
                  exact List.mem_cons_of_mem _ hf
            · cases i with
              | zero => left; simp [runLoop, h1, h2, hq, hg, hw]
              | succ i =>
                rcases ih (idx + 1) p i with hL | ⟨ri, hri, hnp, hset, f, hf, hfi⟩
                · left
                  simpa [runLoop, h1, h2, hq, hg, hw] using hL
                · right
                  refine ⟨ri, by simpa using hri, hnp,
                    by simpa [runLoop, h1, h2, hq, hg, hw] using hset,
                    f, by simpa [runLoop, h1, h2, hq, hg, hw] using hf, by omega⟩

/-- Every file written by the loop belongs to a non-published row whose
question produced a successful generation and a successful write; the
file's name and contents are determined by that row. -/
theorem runLoop_files_char (eff : Gen) (d : String) (t : Nat)
    (rows : List Row) (idx p : Nat) :
    ∀ f ∈ (runLoop eff d t rows idx p).files,
      ∃ j ri, f.1 = idx + j ∧ rows[j]? = some ri ∧ published ri = false ∧
        ∃ q text, pyGet ri "Question" = some q ∧ eff.generate q = some text ∧
          eff.writeOk (filenameFor d q) (fence_clean text) = true ∧
          f.2 = (filenameFor d q, fence_clean text) := by
  induction rows generalizing idx p with
  | nil => simp [runLoop]
  | cons row rest ih =>
    intro f hf
    by_cases h1 : t ≤ p
    · simp [runLoop, h1] at hf
    · by_cases h2 : published row = true
      · rw [show (runLoop eff d t (row :: rest) idx p).files =
          (runLoop eff d t rest (idx + 1) p).files by simp [runLoop, h1, h2]] at hf
        obtain ⟨j, ri, hj, hri, hrest⟩ := ih (idx + 1) p f hf
        exact ⟨j + 1, ri, by omega, by simpa using hri, hrest⟩
      · cases hq : pyGet row "Question" with
        | none => simp [runLoop, h1, h2, hq] at hf
        | some q =>
          cases hg : eff.generate q with
          | none =>
            rw [show (runLoop eff d t (row :: rest) idx p).files =
              (runLoop eff d t rest (idx + 1) p).files by
                simp [runLoop, h1, h2, hq, hg]] at hf
            obtain ⟨j, ri, hj, hri, hrest⟩ := ih (idx + 1) p f hf
            exact ⟨j + 1, ri, by omega, by simpa using hri, hrest⟩
          | some text =>
            by_cases hw : eff.writeOk (filenameFor d q) (fence_clean text) = true
            · rw [show (runLoop eff d t (row :: rest) idx p).files =
                (idx, filenameFor d q, fence_clean text) ::
                  (runLoop eff d t rest (idx + 1) (p + 1)).files by
                    simp [runLoop, h1, h2, hq, hg, hw]] at hf
              rcases List.mem_cons.mp hf with hf0 | hfr
              · subst hf0
                exact ⟨0, row, by omega, by simp,
                  by rw [← Bool.not_eq_true]; exact h2,
                  q, text, hq, hg, hw, rfl⟩
              · obtain ⟨j, ri, hj, hri, hrest⟩ := ih (idx + 1) (p + 1) f hfr
                exact ⟨j + 1, ri, by omega, by simpa using hri, hrest⟩
            · rw [show (runLoop eff d t (row :: rest) idx p).files =
                (runLoop eff d t rest (idx + 1) p).files by
                  simp [runLoop, h1, h2, hq, hg, hw]] at hf
              obtain ⟨j, ri, hj, hri, hrest⟩ := ih (idx + 1) p f hf
              exact ⟨j + 1, ri, by omega, by simpa using hri, hrest⟩

/-- Every generation call made by the loop is for the question of a
non-published row. -/
theorem runLoop_calls_char (eff : Gen) (d : String) (t : Nat)
    (rows : List Row) (idx p : Nat) :
    ∀ g ∈ (runLoop eff d t rows idx p).genCalls,
      ∃ j ri, g.1 = idx + j ∧ rows[j]? = some ri ∧ published ri = false ∧
        pyGet ri "Question" = some g.2 := by
  induction rows generalizing idx p with
  | nil => simp [runLoop]
  | cons row rest ih =>
    intro g hg
    by_cases h1 : t ≤ p
    · simp [runLoop, h1] at hg
    · by_cases h2 : published row = true
      · rw [show (runLoop eff d t (row :: rest) idx p).genCalls =
          (runLoop eff d t rest (idx + 1) p).genCalls by
            simp [runLoop, h1, h2]] at hg
        obtain ⟨j, ri, hj, hri, hrest⟩ := ih (idx + 1) p g hg
        exact ⟨j + 1, ri, by omega, by simpa using hri, hrest⟩
      · cases hques : pyGet row "Question" with
        | none => simp [runLoop, h1, h2, hques] at hg
        | some q =>
          have hcons : ∀ o : LoopOut, g ∈ (idx, q) :: o.genCalls →
              (∀ g2 ∈ o.genCalls,
                ∃ j ri, g2.1 = (idx + 1) + j ∧ rest[j]? = some ri ∧
                  published ri = false ∧ pyGet ri "Question" = some g2.2) →
              ∃ j ri, g.1 = idx + j ∧ (row :: rest)[j]? = some ri ∧
                published ri = false ∧ pyGet ri "Question" = some g.2 := by
            intro o hgo hrec
            rcases List.mem_cons.mp hgo with hg0 | hgr
            · subst hg0
              exact ⟨0, row, by omega, by simp,
                by rw [← Bool.not_eq_true]; exact h2, hques⟩
            · obtain ⟨j, ri, hj, hri, hrest⟩ := hrec g hgr
              exact ⟨j + 1, ri, by omega, by simpa using hri, hrest⟩
          cases hgen : eff.generate q with
          | none =>
            refine hcons (runLoop eff d t rest (idx + 1) p) ?_ (ih (idx + 1) p)
            rw [show (runLoop eff d t (row :: rest) idx p).genCalls =
              (idx, q) :: (runLoop eff d t rest (idx + 1) p).genCalls by
                simp [runLoop, h1, h2, hques, hgen]] at hg
            exact hg
          | some text =>
            by_cases hw : eff.writeOk (filenameFor d q) (fence_clean text) = true
            · refine hcons (runLoop eff d t rest (idx + 1) (p + 1)) ?_
                (ih (idx + 1) (p + 1))
              rw [show (runLoop eff d t (row :: rest) idx p).genCalls =
                (idx, q) :: (runLoop eff d t rest (idx + 1) (p + 1)).genCalls by
                  simp [runLoop, h1, h2, hques, hgen, hw]] at hg
              exact hg
            · refine hcons (runLoop eff d t rest (idx + 1) p) ?_ (ih (idx + 1) p)
              rw [show (runLoop eff d t (row :: rest) idx p).genCalls =
                (idx, q) :: (runLoop eff d t rest (idx + 1) p).genCalls by
                  simp [runLoop, h1, h2, hques, hgen, hw]] at hg
              exact hg

theorem pendingCount_cons_published (row : Row) (rest : List Row)
    (h : published row = true) :
    pendingCount (row :: rest) = pendingCount rest := by
  simp [pendingCount, List.filter_cons, h]

theorem pendingCount_cons_pending (row : Row) (rest : List Row)
    (h : published row = false) :
    pendingCount (row :: rest) = pendingCount rest + 1 := by
  simp [pendingCount, List.filter_cons, h]

/-- Refinement of the loop against the spec-side description: with a
working external world and questions on every pending row, the loop
publishes exactly the first `target - p` pending rows and counts
`min target (p + pendingCount rows)` records as processed. -/
theorem runLoop_spec (eff : Gen) (d : String) (t : Nat)
    (rows : List Row) (idx p : Nat)
    (hq : ∀ r ∈ rows, published r = false → hasQ r = true)
    (hg : ∀ q, (eff.generate q).isSome = true)
    (hw : ∀ fn c, eff.writeOk fn c = true) (hp : p ≤ t) :
    (runLoop eff d t rows idx p).ok = true ∧
    (runLoop eff d t rows idx p).rows = specMarkFirst (t - p) rows ∧
    (runLoop eff d t rows idx p).processed = min t (p + pendingCount rows) := by
  induction rows generalizing idx p with
  | nil =>
    simp [runLoop, specMarkFirst, pendingCount]
    omega
  | cons row rest ih =>
    have hrest : ∀ r ∈ rest, published r = false → hasQ r = true :=
      fun r hr => hq r (List.mem_cons_of_mem row hr)
    by_cases h1 : t ≤ p
    · have hpt : p = t := Nat.le_antisymm hp h1
      have ht0 : t - p = 0 := by omega
      simp [runLoop, h1, ht0, specMarkFirst]
      omega
    · have hlt : p < t := Nat.lt_of_le_of_ne hp (fun he => h1 (le_of_eq he.symm))
      have htp : t - p = (t - (p + 1)) + 1 := by omega
      by_cases h2 : published row = true
      · obtain ⟨hok, hrows, hproc⟩ := ih (idx + 1) p hrest hp
        rw [htp]
        simp [runLoop, h1, h2, hok, hrows, hproc, specMarkFirst,
          pendingCount_cons_published row rest h2, ← htp]
      · have h2f : published row = false := by rw [← Bool.not_eq_true]; exact h2
        have hhq := hq row (List.mem_cons_self row rest) h2f
        rw [hasQ, Option.isSome_iff_exists] at hhq
        obtain ⟨q, hques⟩ := hhq
        have hgen := hg q
        rw [Option.isSome_iff_exists] at hgen
        obtain ⟨text, hgen⟩ := hgen
        obtain ⟨hok, hrows, hproc⟩ := ih (idx + 1) (p + 1) hrest hlt
        rw [htp]
        have hwr := hw (filenameFor d q) (fence_clean text)
        simp [runLoop, h1, h2, hques, hgen, hwr, hok, hrows, hproc,
          specMarkFirst, h2f, pendingCount_cons_pending row rest h2f]
        omega

/-- The spec-side marking publishes `min k (pendingCount rows)` new
records. -/
theorem publishedCount_specMarkFirst (k : Nat) (rows : List Row) :
    publishedCount (specMarkFirst k rows) =
      publishedCount rows + min k (pendingCount rows) := by
  induction rows generalizing k with
  | nil => cases k <;> simp [specMarkFirst, pendingCount, publishedCount]
  | cons row rest ih =>
    cases k with
    | zero => simp [specMarkFirst]
    | succ k =>
      by_cases h2 : published row = true
      · simp [specMarkFirst, h2, publishedCount, List.filter_cons,
          pendingCount_cons_published row rest h2]
        have := ih (k + 1)
        simp [publishedCount] at this
        omega
      · have h2f : published row = false := by rw [← Bool.not_eq_true]; exact h2
        simp [specMarkFirst, h2, publishedCount, List.filter_cons,
          published_setField, pendingCount_cons_pending row rest h2f]
        have := ih k
        simp [publishedCount] at this
        omega

/-- When the quota covers every pending row, the spec-side marking leaves
every row published. -/
theorem specMarkFirst_all_published (k : Nat) (rows : List Row)
    (h : pendingCount rows ≤ k) :
    ∀ r ∈ specMarkFirst k rows, published r = true := by
  induction rows generalizing k with
  | nil => intro r hr; cases k <;> simp [specMarkFirst] at hr
  | cons row rest ih =>
    cases k with
    | zero =>
      have : pendingCount (row :: rest) = 0 := by omega
      rw [pendingCount] at this
      have hall := List.filter_eq_nil_iff.mp (List.length_eq_zero.mp this)
      intro r hr
      have hsm : specMarkFirst 0 (row :: rest) = row :: rest := rfl
      rw [hsm] at hr
      have := hall r hr
      simpa using this
    | succ k =>
      by_cases h2 : published row = true
      · have hc := pendingCount_cons_published row rest h2
        intro r hr
        rw [specMarkFirst, if_pos h2] at hr
        rcases List.mem_cons.mp hr with rfl | hr2
        · exact h2
        · exact ih (k + 1) (by omega) r hr2
      · have h2f : published row = false := by rw [← Bool.not_eq_true]; exact h2
        have hc := pendingCount_cons_pending row rest h2f
        intro r hr
        rw [specMarkFirst, if_neg h2] at hr
        rcases List.mem_cons.mp hr with rfl | hr2
        · exact published_setField row
        · exact ih k (by omega) r hr2

/-! ## Facts about one full invocation of main -/

/-- Single-run frame for a published record: no generation call, no file,
and an unchanged row, whether or not the run completed. -/
theorem pymain_published_frame (eff : Gen) (d : String) (wd : Nat)
    (st : Store) (i : Nat) (ri : Row)
    (hrow : st.rows[i]? = some ri) (hpub : published ri = true) :
    (∀ g ∈ (pymain eff d wd (some st)).genCalls, g.1 ≠ i) ∧
    (∀ f ∈ (pymain eff d wd (some st)).files, f.1 ≠ i) ∧
    (nextStore st ⟨eff, d, wd⟩).rows[i]? = some ri := by
  set t := get_target_count wd with ht
  have hcalls : ∀ g ∈ (runLoop eff d t st.rows 0 0).genCalls, g.1 ≠ i := by
    intro g hgm hgi
    obtain ⟨j, rj, hj, hrj, hnp, _⟩ := runLoop_calls_char eff d t st.rows 0 0 g hgm
    have : j = i := by omega
    subst this
    rw [hrow] at hrj
    cases hrj
    rw [hpub] at hnp
    cases hnp
  have hfiles : ∀ f ∈ (runLoop eff d t st.rows 0 0).files, f.1 ≠ i := by
    intro f hfm hfi
    obtain ⟨j, rj, hj, hrj, hnp, _⟩ := runLoop_files_char eff d t st.rows 0 0 f hfm
    have : j = i := by omega
    subst this
    rw [hrow] at hrj
    cases hrj
    rw [hpub] at hnp
    cases hnp
  have hrows : (runLoop eff d t st.rows 0 0).rows[i]? = some ri := by
    rcases runLoop_rows_char eff d t st.rows 0 0 i with hL | ⟨rj, hrj, hnp, _, f, hf, hfi⟩
    · rw [hL, hrow]
    · exact absurd (by omega : f.1 = i) (hfiles f hf)
  constructor
  · intro g hgm
    apply hcalls g
    by_cases hok : (runLoop eff d t st.rows 0 0).ok = true <;>
      simpa [pymain, ← ht, hok] using hgm
  constructor
  · intro f hfm
    apply hfiles f
    by_cases hok : (runLoop eff d t st.rows 0 0).ok = true <;>
      simpa [pymain, ← ht, hok] using hfm
  · by_cases hok : (runLoop eff d t st.rows 0 0).ok = true
    · simp [nextStore, pymain, ← ht, hok]
      exact hrows
    · simp [nextStore, pymain, ← ht, hok]
      exact hrow

/-- The processed counter of a run equals the number of files it wrote. -/
theorem pymain_processed_files (eff : Gen) (d : String) (wd : Nat)
    (csv : Option Store) :
    (pymain eff d wd csv).processed = (pymain eff d wd csv).files.length := by
  cases csv with
  | none => simp [pymain]
  | some st =>
    set t := get_target_count wd with ht
    have h := runLoop_processed eff d t st.rows 0 0
    by_cases hok : (runLoop eff d t st.rows 0 0).ok = true <;>
      simp [pymain, ← ht, hok, h]

/-- C1: a record that is Published before a run starts is never passed to
the generation service, never has a file written for it, keeps its row
unchanged on disk, and contributes nothing to the processed count (which
counts exactly the files written); and this holds after any sequence of
earlier runs, so a Published record is never regenerated or overwritten by
any later run. -/
theorem C1_published_never_touched (st : Store) (i : Nat) (ri : Row)
    (hrow : st.rows[i]? = some ri) (hpub : published ri = true)
    (es : List RunEnv) (e : RunEnv) :
    (chainStores st es).rows[i]? = some ri ∧
    (∀ g ∈ (pymain e.eff e.dateStr e.weekday
      (some (chainStores st es))).genCalls, g.1 ≠ i) ∧
    (∀ f ∈ (pymain e.eff e.dateStr e.weekday
      (some (chainStores st es))).files, f.1 ≠ i) ∧
    (nextStore (chainStores st es) e).rows[i]? = some ri ∧
    (pymain e.eff e.dateStr e.weekday (some (chainStores st es))).processed =
      (pymain e.eff e.dateStr e.weekday
        (some (chainStores st es))).files.length := by
  have hchain : (chainStores st es).rows[i]? = some ri := by
    induction es generalizing st with
    | nil => exact hrow
    | cons e2 es2 ih =>
      rw [chainStores, List.foldl_cons]
      exact ih (nextStore st e2)
        ((pymain_published_frame e2.eff e2.dateStr e2.weekday st i ri
          hrow hpub).2.2)
  obtain ⟨hg, hf, hn⟩ := pymain_published_frame e.eff e.dateStr e.weekday
    (chainStores st es) i ri hchain hpub
  exact ⟨hchain, hg, hf, (by cases e; exact hn),
    pymain_processed_files e.eff e.dateStr e.weekday (some (chainStores st es))⟩

/-- Witness for C1 at a concrete store whose first record is Published:
after zero earlier runs, one run of the always-succeeding world leaves the
record in place. -/
theorem C1_witness :
    (exStorePub.rows[0]? = some (mkPublished "p1") ∧
      published (mkPublished "p1") = true) ∧
    (nextStore (chainStores exStorePub []) exEnv).rows[0]? =
      some (mkPublished "p1") :=
  ⟨⟨by decide, by decide⟩,
    (C1_published_never_touched exStorePub 0 (mkPublished "p1") (by decide)
      (by decide) [] exEnv).2.2.2.1⟩

/-- C2: on a store with more pending records than the quota, with every
generation call and file write succeeding and a question on every pending
record, one run completes, marks exactly `quota` records Published — the
first pending records in store order, as described by `specMarkFirst`,
leaving every later record untouched — and the quota is the deterministic
date function that yields 8 on weekend days and 4 otherwise. -/
theorem C2_quota_bound (eff : Gen) (d : String) (wd : Nat) (st : Store)
    (hg : ∀ q, (eff.generate q).isSome = true)
    (hw : ∀ fn c, eff.writeOk fn c = true)
    (hq : ∀ r ∈ st.rows, published r = false → hasQ r = true)
    (hpend : get_target_count wd < pendingCount st.rows) :
    (pymain eff d wd (some st)).completed = true ∧
    (pymain eff d wd (some st)).processed = get_target_count wd ∧
    (∃ out, (pymain eff d wd (some st)).store = some out ∧
      out.rows = specMarkFirst (get_target_count wd) st.rows ∧
      publishedCount out.rows =
        publishedCount st.rows + get_target_count wd) ∧
    (∀ wd2 : Nat, get_target_count wd2 = if 5 ≤ wd2 then 8 else 4) := by
  set t := get_target_count wd with ht
  obtain ⟨hok, hrows, hproc⟩ :=
    runLoop_spec eff d t st.rows 0 0 hq hg hw (Nat.zero_le t)
  have hrows0 : (runLoop eff d t st.rows 0 0).rows = specMarkFirst t st.rows := by
    simpa using hrows
  have hproc0 : (runLoop eff d t st.rows 0 0).processed = t := by
    rw [hproc]
    omega
  refine ⟨by simp [pymain, ← ht, hok], by simp [pymain, ← ht, hok, hproc0], ?_, fun wd2 => rfl⟩
  refine ⟨⟨if "Status" ∈ st.fieldnames then st.fieldnames
    else st.fieldnames ++ ["Status"], (runLoop eff d t st.rows 0 0).rows⟩,
    by simp [pymain, ← ht, hok], by simpa using hrows0, ?_⟩
  rw [hrows0, publishedCount_specMarkFirst]
  have : min t (pendingCount st.rows) = t := by omega
  rw [this]

/-- Witness for C2: the always-succeeding world on a Monday over a store
of five pending records publishes exactly four. -/
theorem C2_witness :
    ((∀ r ∈ exStore.rows, published r = false → hasQ r = true) ∧
      get_target_count 0 < pendingCount exStore.rows) ∧
    (pymain allOk "2024-01-01" 0 (some exStore)).processed =
      get_target_count 0 :=
  ⟨⟨by decide, by decide⟩,
    (C2_quota_bound allOk "2024-01-01" 0 exStore (fun q => rfl)
      (fun fn c => rfl) (by decide) (by decide)).2.1⟩

/-- C3: a pending record whose generation call fails, or all of whose file
writes fail, stays unchanged in the rewritten store, gets no file, and is
not counted; the run still completes the whole batch (given every pending
record has a question), the processed count equals the number of files
written, and any record that is Published afterwards either was Published
before or had a file written for it. -/
theorem C3_failure_isolation (eff : Gen) (d : String) (wd : Nat) (st : Store)
    (i : Nat) (ri : Row) (q : String)
    (hq : ∀ r ∈ st.rows, published r = false → hasQ r = true)
    (hrow : st.rows[i]? = some ri) (_hnp : published ri = false)
    (hques : pyGet ri "Question" = some q)
    (hfail : eff.generate q = none ∨
      ∀ c, eff.writeOk (filenameFor d q) c = false) :
    (pymain eff d wd (some st)).completed = true ∧
    (∀ f ∈ (pymain eff d wd (some st)).files, f.1 ≠ i) ∧
    (∃ out, (pymain eff d wd (some st)).store = some out ∧
      out.rows[i]? = some ri) ∧
    (pymain eff d wd (some st)).processed =
      (pymain eff d wd (some st)).files.length ∧
    (∀ j rj rj2 out, st.rows[j]? = some rj →
      (pymain eff d wd (some st)).store = some out →
      out.rows[j]? = some rj2 → published rj2 = true →
      published rj = true ∨ ∃ f ∈ (pymain eff d wd (some st)).files, f.1 = j) := by
  set t := get_target_count wd with ht
  have hok := runLoop_ok eff d t st.rows 0 0 hq
  have hfiles : ∀ f ∈ (runLoop eff d t st.rows 0 0).files, f.1 ≠ i := by
    intro f hfm hfi
    obtain ⟨j, rj, hj, hrj, hnpj, q2, text, hq2, hgen, hwr, _⟩ :=
      runLoop_files_char eff d t st.rows 0 0 f hfm
    have : j = i := by omega
    subst this
    rw [hrow] at hrj
    cases hrj
    rw [hques] at hq2
    cases hq2
    rcases hfail with hgf | hwf
    · rw [hgf] at hgen
      cases hgen
    · rw [hwf (fence_clean text)] at hwr
      cases hwr
  have hrows : (runLoop eff d t st.rows 0 0).rows[i]? = some ri := by
    rcases runLoop_rows_char eff d t st.rows 0 0 i with hL | ⟨rj, hrj, _, _, f, hf, hfi⟩
    · rw [hL, hrow]
    · exact absurd (by omega : f.1 = i) (hfiles f hf)
  refine ⟨by simp [pymain, ← ht, hok], ?_, ?_, pymain_processed_files _ _ _ _, ?_⟩
  · intro f hfm
    apply hfiles f
    simpa [pymain, ← ht, hok] using hfm
  · exact ⟨⟨if "Status" ∈ st.fieldnames then st.fieldnames
      else st.fieldnames ++ ["Status"], (runLoop eff d t st.rows 0 0).rows⟩,
      by simp [pymain, ← ht, hok], hrows⟩
  · intro j rj rj2 out hrj hout hrj2 hpub2
    have hout2 : out.rows = (runLoop eff d t st.rows 0 0).rows := by
      have : (pymain eff d wd (some st)).store =
          some ⟨if "Status" ∈ st.fieldnames then st.fieldnames
            else st.fieldnames ++ ["Status"],
            (runLoop eff d t st.rows 0 0).rows⟩ := by
        simp [pymain, ← ht, hok]
      rw [this] at hout
      cases hout
      rfl
    rcases runLoop_rows_char eff d t st.rows 0 0 j with hL | ⟨rj3, hrj3, _, _, f, hf, hfi⟩
    · left
      rw [hout2, hL, hrj] at hrj2
      cases hrj2
      exact hpub2
    · right
      exact ⟨f, by simpa [pymain, ← ht, hok] using hf, by omega⟩

/-- Witness for C3: in the world where generating `q1` fails, a run over
the five-pending-record store leaves record 0 unchanged in the rewritten
store. -/
theorem C3_witness :
    ((∀ r ∈ exStore.rows, published r = false → hasQ r = true) ∧
      exStore.rows[0]? = some (mkPending "q1") ∧
      published (mkPending "q1") = false ∧
      pyGet (mkPending "q1") "Question" = some "q1" ∧
      failQ1.generate "q1" = none) ∧
    (∃ out, (pymain failQ1 "2024-01-01" 0 (some exStore)).store = some out ∧
      out.rows[0]? = some (mkPending "q1")) :=
  ⟨⟨by decide, by decide, by decide, by decide, by decide⟩,
    (C3_failure_isolation failQ1 "2024-01-01" 0 exStore 0 (mkPending "q1")
      "q1" (by decide) (by decide) (by decide) (by decide)
      (Or.inl (by decide))).2.2.1⟩

/-- C4 counterexample: with five pending records, a weekday quota of four
and an always-succeeding world, running the batch a second time
immediately after the first — with no record added in between — writes one
more output file, not zero: the first run left a pending record behind and
the second run publishes it. -/
theorem C4_counterexample_second_run_writes :
    (pymain allOk "2024-01-01" 0 (some exStore)).files.length = 4 ∧
    (pymain allOk "2024-01-01" 0
      (some ((pymain allOk "2024-01-01" 0 (some exStore)).store.getD
        exStore))).files.length = 1 := by
  refine ⟨by decide, by decide⟩

/-- C4 amended: if the first run publishes every pending record (the
pending count is within the quota, every call and write succeeds, and
every pending record has a question), then an immediately following second
run writes zero output files, makes no generation calls, processes zero
records, and rewrites the store with identical contents. -/
theorem C4_idempotent_after_full_publish (eff eff2 : Gen) (d d2 : String)
    (wd wd2 : Nat) (st : Store)
    (hg : ∀ q, (eff.generate q).isSome = true)
    (hw : ∀ fn c, eff.writeOk fn c = true)
    (hq : ∀ r ∈ st.rows, published r = false → hasQ r = true)
    (hpend : pendingCount st.rows ≤ get_target_count wd) :
    ∃ s1, (pymain eff d wd (some st)).store = some s1 ∧
      (pymain eff2 d2 wd2 ((pymain eff d wd (some st)).store)).files = [] ∧
      (pymain eff2 d2 wd2 ((pymain eff d wd (some st)).store)).genCalls = [] ∧
      (pymain eff2 d2 wd2 ((pymain eff d wd (some st)).store)).processed = 0 ∧
      (pymain eff2 d2 wd2 ((pymain eff d wd (some st)).store)).store =
        some s1 := by
  set t := get_target_count wd with ht
  obtain ⟨hok, hrows, _⟩ :=
    runLoop_spec eff d t st.rows 0 0 hq hg hw (Nat.zero_le t)
  have hrows0 : (runLoop eff d t st.rows 0 0).rows =
      specMarkFirst t st.rows := by simpa using hrows
  set fns := if "Status" ∈ st.fieldnames then st.fieldnames
    else st.fieldnames ++ ["Status"] with hfns
  have hmem : "Status" ∈ fns := by
    rw [hfns]
    by_cases hs : "Status" ∈ st.fieldnames
    · simp [hs]
    · simp [hs]
  have hstore1 : (pymain eff d wd (some st)).store =
      some ⟨fns, (runLoop eff d t st.rows 0 0).rows⟩ := by
    simp [pymain, ← ht, hok, hfns]
  have hallpub : ∀ r ∈ (runLoop eff d t st.rows 0 0).rows,
      published r = true := by
    rw [hrows0]
    exact specMarkFirst_all_published t st.rows hpend
  refine ⟨⟨fns, (runLoop eff d t st.rows 0 0).rows⟩, hstore1, ?_, ?_, ?_, ?_⟩ <;>
    rw [hstore1] <;>
    simp [pymain, runLoop_all_published eff2 d2 (get_target_count wd2) _ 0 0
      hallpub, hmem]

/-- Witness for the amended C4 theorem: one published and one pending
record, quota four, all effects succeeding. -/
theorem C4_witness :
    ((∀ r ∈ exStorePub.rows, published r = false → hasQ r = true) ∧
      pendingCount exStorePub.rows ≤ get_target_count 0) ∧
    ∃ s1, (pymain allOk "2024-01-01" 0 (some exStorePub)).store = some s1 ∧
      (pymain allOk "2024-01-02" 0
        ((pymain allOk "2024-01-01" 0 (some exStorePub)).store)).files = [] ∧
      (pymain allOk "2024-01-02" 0
        ((pymain allOk "2024-01-01" 0 (some exStorePub)).store)).genCalls = [] ∧
      (pymain allOk "2024-01-02" 0
        ((pymain allOk "2024-01-01" 0 (some exStorePub)).store)).processed = 0 ∧
      (pymain allOk "2024-01-02" 0
        ((pymain allOk "2024-01-01" 0 (some exStorePub)).store)).store =
        some s1 :=
  ⟨⟨by decide, by decide⟩,
    C4_idempotent_after_full_publish allOk allOk "2024-01-01" "2024-01-02"
      0 0 exStorePub (fun q => rfl) (fun fn c => rfl) (by decide) (by decide)⟩

/-- C7: a completed run rewrites the store with the full record set, the
same number of rows, every field other than `Status` preserved verbatim in
every row, and a `Status` column present in the header even if the
original store lacked one. -/
theorem C7_round_trip (eff : Gen) (d : String) (wd : Nat) (st : Store)
    (hc : (pymain eff d wd (some st)).completed = true) :
    ∃ out, (pymain eff d wd (some st)).store = some out ∧
      out.fieldnames = (if "Status" ∈ st.fieldnames then st.fieldnames
        else st.fieldnames ++ ["Status"]) ∧
      "Status" ∈ out.fieldnames ∧
      out.rows.length = st.rows.length ∧
      (∀ (i : Nat) ri ri2, st.rows[i]? = some ri → out.rows[i]? = some ri2 →
        ∀ k, k ≠ "Status" → getField ri2 k = getField ri k) := by
  set t := get_target_count wd with ht
  have hok : (runLoop eff d t st.rows 0 0).ok = true := by
    by_cases h : (runLoop eff d t st.rows 0 0).ok = true
    · exact h
    · exact absurd hc (by simp [pymain, ← ht, h])
  set fns := if "Status" ∈ st.fieldnames then st.fieldnames
    else st.fieldnames ++ ["Status"] with hfns
  have hmem : "Status" ∈ fns := by
    rw [hfns]
    by_cases hs : "Status" ∈ st.fieldnames
    · simp [hs]
    · simp [hs]
  refine ⟨⟨fns, (runLoop eff d t st.rows 0 0).rows⟩,
    by simp [pymain, ← ht, hok, hfns], rfl, hmem,
    runLoop_rows_length eff d t st.rows 0 0, ?_⟩
  intro i ri ri2 hri hri2 k hk
  rcases runLoop_rows_char eff d t st.rows 0 0 i with hL | ⟨rj, hrj, _, hset, _⟩
  · rw [hL, hri] at hri2
    cases hri2
    rfl
  · rw [hri] at hrj
    cases hrj
    rw [hset] at hri2
    cases hri2
    exact getField_setField_ne ri "Status" "Published" k hk

/-- Witness for C7 at the five-record store under the always-succeeding
world. -/
theorem C7_witness :
    (pymain allOk "2024-01-01" 0 (some exStore)).completed = true ∧
    ∃ out, (pymain allOk "2024-01-01" 0 (some exStore)).store = some out ∧
      out.fieldnames = (if "Status" ∈ exStore.fieldnames then
        exStore.fieldnames else exStore.fieldnames ++ ["Status"]) ∧
      "Status" ∈ out.fieldnames ∧
      out.rows.length = exStore.rows.length ∧
      (∀ (i : Nat) ri ri2, exStore.rows[i]? = some ri → out.rows[i]? = some ri2 →
        ∀ k, k ≠ "Status" → getField ri2 k = getField ri k) :=
  ⟨by decide, C7_round_trip allOk "2024-01-01" 0 exStore (by decide)⟩

/-- C8: when the credential is absent from the environment, or the store
file is absent or unparsable, the process stops before doing any work: no
generation call, no output file, no store rewrite (hence no record
mutation), and a processed count of zero. -/
theorem C8_startup_failure_no_effects (key : Bool) (eff : Gen) (d : String)
    (wd : Nat) (csv : Option Store) (h : key = false ∨ csv = none) :
    (program key eff d wd csv).genCalls = [] ∧
    (program key eff d wd csv).files = [] ∧
    (program key eff d wd csv).store = none ∧
    (program key eff d wd csv).processed = 0 := by
  rcases h with rfl | rfl
  · exact ⟨rfl, rfl, rfl, rfl⟩
  · cases key <;> exact ⟨rfl, rfl, rfl, rfl⟩

/-- Witness for C8 with a missing credential over the five-record store. -/
theorem C8_witness :
    (false = false ∨ (some exStore : Option Store) = none) ∧
    (program false allOk "2024-01-01" 0 (some exStore)).files = [] :=
  ⟨Or.inl rfl,
    (C8_startup_failure_no_effects false allOk "2024-01-01" 0 (some exStore)
      (Or.inl rfl)).2.1⟩

/-- C9: on the concrete store whose second data row has a missing
question, the run aborts with an uncaught exception outside the per-record
handler: the first record's article file is written and the record is
counted, but the store is never rewritten, so on disk the first record
still reads Pending while its output file exists. -/
theorem C9_missing_question_aborts_before_persist :
    (pymain allOk "2024-01-01" 0 (some exStoreAbort)).completed = false ∧
    (pymain allOk "2024-01-01" 0 (some exStoreAbort)).store = none ∧
    (pymain allOk "2024-01-01" 0 (some exStoreAbort)).files =
      [(0, "2024-01-01-a.md", ['X'])] ∧
    (pymain allOk "2024-01-01" 0 (some exStoreAbort)).processed = 1 ∧
    exStoreAbort.rows[0]? = some (mkPending "A") ∧
    pyGet (mkPending "A") "Status" = some "Pending" ∧
    pyGet (exStoreAbort.rows[1]?.getD []) "Question" = none := by
  refine ⟨by decide, by decide, by decide, by decide, by decide, by decide,
    by decide⟩

end Generator
